import Mathlib

/-! Verification development for the django-macros template-tag library:
a shallow embedding of the argument-binding, scoping, and tag-compilation
logic of macros.py and repeatedblocks.py, with theorems about it. -/

/-- Python-dict lookup on an association list (first match). -/
def dictGet {α : Type} : List (String × α) → String → Option α
  | [], _ => none
  | (k, v) :: d, key => if k = key then some v else dictGet d key

/-- Python-dict assignment: update in place if the key exists, else append. -/
def dictSet {α : Type} : List (String × α) → String → α → List (String × α)
  | [], key, val => [(key, val)]
  | (k, v) :: d, key, val =>
    if k = key then (key, val) :: d else (k, v) :: dictSet d key val

theorem dictGet_dictSet_self {α : Type} (d : List (String × α)) (k : String) (v : α) :
    dictGet (dictSet d k v) k = some v := by
  induction d with
  | nil => simp [dictGet, dictSet]
  | cons hd tl ih =>
    obtain ⟨k0, v0⟩ := hd
    by_cases h0 : k0 = k
    · simp [dictSet, dictGet, h0]
    · simp [dictSet, dictGet, h0, ih]

theorem dictGet_dictSet_ne {α : Type} (d : List (String × α)) (k : String) (v : α)
    (k' : String) (h : k' ≠ k) : dictGet (dictSet d k v) k' = dictGet d k' := by
  have hne : ¬k = k' := fun he => h he.symm
  induction d with
  | nil => simp [dictGet, dictSet, hne]
  | cons hd tl ih =>
    obtain ⟨k0, v0⟩ := hd
    by_cases h0 : k0 = k
    · subst h0
      simp [dictSet, dictGet, hne]
    · by_cases h1 : k0 = k'
      · subst h1
        simp [dictSet, dictGet, h0]
      · simp [dictSet, dictGet, h0, h1, ih]

theorem mem_of_dictGet {α : Type} (d : List (String × α)) (k : String) (v : α)
    (h : dictGet d k = some v) : (k, v) ∈ d := by
  induction d with
  | nil => simp [dictGet] at h
  | cons hd tl ih =>
    obtain ⟨k0, v0⟩ := hd
    by_cases h0 : k0 = k
    · subst h0
      simp [dictGet] at h
      simp [h]
    · simp [dictGet, h0] at h
      exact List.mem_cons_of_mem _ (ih h)

theorem mem_zip_parts {α β : Type} :
    ∀ (l₁ : List α) (l₂ : List β) (p : α × β), p ∈ l₁.zip l₂ → p.1 ∈ l₁ ∧ p.2 ∈ l₂ := by
  intro l₁
  induction l₁ with
  | nil => intro l₂ p h; simp [List.zip] at h
  | cons a l ih =>
    intro l₂ p h
    cases l₂ with
    | nil => simp [List.zip] at h
    | cons b l' =>
      rcases List.mem_cons.mp h with h | h
      · subst h; exact ⟨List.mem_cons_self _ _, List.mem_cons_self _ _⟩
      · rcases ih l' p h with ⟨h1, h2⟩
        exact ⟨List.mem_cons_of_mem _ h1, List.mem_cons_of_mem _ h2⟩

/-- A rendering context: the host framework's Context, viewed as the
single mutable mapping that context getitem and setitem operate on. -/
abbrev Ctx := List (String × String)

/-- First character of a Python identifier per the tags' regexes: [A-Za-z_]. -/
def isIdentStart (c : Char) : Bool := c.isAlpha || c = '_'

/-- Later character of a Python identifier per the tags' regexes: [A-Za-z0-9_]. -/
def isIdentChar (c : Char) : Bool := c.isAlphanum || c = '_'

/-- Whether a string matches the arg regex of the definition tag:
the anchored pattern of an identifier start then identifier characters. -/
def isPyIdent (s : String) : Bool :=
  match s.toList with
  | [] => false
  | c :: rest => isIdentStart c && rest.all isIdentChar

/-- Whether a string is fully quoted by the character q, with no newline
inside, as the quoted alternatives of the kwarg regex require (a dot in the
pattern does not match a newline). -/
def isQuotedBy (q : Char) (s : String) : Bool :=
  match s.toList with
  | [] => false
  | c :: rest =>
    c == q && !rest.isEmpty && rest.getLast? == some q &&
      rest.dropLast.all (fun ch => ch != '\n')

/-- Whether a string is a nonempty run of ASCII digits, the number
alternative of the invocation-arg regex. -/
def isDigits (s : String) : Bool :=
  !s.isEmpty && s.toList.all Char.isDigit

/-- Split a character list at its first equals sign: the regex name=value
split, where the name group cannot contain an equals sign. -/
def splitAtFirstEqChars : List Char → Option (List Char × List Char)
  | [] => none
  | c :: rest =>
    if c = '=' then some ([], rest)
    else
      match splitAtFirstEqChars rest with
      | none => none
      | some (a, b) => some (c :: a, b)

/-- The value alternatives of the kwarg regex shared by the definition and
invocation tags: a double-quoted string, a single-quoted string, or an
identifier. -/
def kwargValuePattern (s : String) : Bool :=
  isQuotedBy '"' s || isQuotedBy '\'' s || isPyIdent s

/-- Match a token against the kwarg regex: an identifier name, an equals
sign, then a value alternative; returns the two captured groups. -/
def matchKwargPattern (s : String) : Option (String × String) :=
  match splitAtFirstEqChars s.toList with
  | none => none
  | some (n, v) =>
    let nm := String.mk n
    let vl := String.mk v
    if isPyIdent nm && kwargValuePattern vl then some (nm, vl) else none

/-- The arg regex of the invocation tags: an identifier, a quoted string,
or a number. -/
def useArgPattern (s : String) : Bool :=
  isPyIdent s || isQuotedBy '"' s || isQuotedBy '\'' s || isDigits s

/-- The host's template.Variable, restricted to the shapes the tags'
regexes let through: a quoted or numeric literal, already resolved, or a
deferred lookup of a context variable by name. -/
inductive TemplateVariable where
  | lit (s : String)
  | var (nm : String)
deriving DecidableEq

/-- Variable.resolve: a literal resolves to itself, a variable by context
lookup; a missing variable raises VariableDoesNotExist, modelled as none. -/
def TemplateVariable.resolve : TemplateVariable → Ctx → Option String
  | TemplateVariable.lit s, _ => some s
  | TemplateVariable.var nm, c => dictGet c nm

/-- Strip the first and last character: how Variable unquotes a quoted
literal. -/
def stripQuotes (s : String) : String :=
  String.mk ((s.toList.drop 1).dropLast)

/-- template.Variable's constructor on a regex-accepted token: numbers and
quoted strings become literals, identifiers become deferred lookups. -/
def mkTemplateVariable (s : String) : TemplateVariable :=
  if isDigits s then TemplateVariable.lit s
  else if isQuotedBy '"' s || isQuotedBy '\'' s then TemplateVariable.lit (stripQuotes s)
  else TemplateVariable.var s

/-- A kwarg default stored on a definition node: still a template.Variable
(deferred), or an already-resolved plain value. -/
inductive MacroDefault where
  | varDefault (v : TemplateVariable)
  | valDefault (s : String)
deriving DecidableEq

/-- DefineMacroNode: the stored name, the parsed body nodelist (as its
render function), declared positional parameter names, and declared keyword
parameters with defaults. -/
structure DefineMacroNode where
  name : String
  nodelist : Ctx → String
  args : List String
  kwargs : List (String × MacroDefault)

/-- The resolve call DefineMacroNode.render makes on each default: only a
template.Variable has a resolve method, so an already-resolved default
raises AttributeError, modelled as none. -/
def resolveDefaultAsVariable : MacroDefault → Ctx → Option String
  | MacroDefault.varDefault v, c => TemplateVariable.resolve v c
  | MacroDefault.valDefault _, _ => none

/-- The dict comprehension in DefineMacroNode.render: resolve every kwarg
default in the current context. -/
def resolveAllDefaults : List (String × MacroDefault) → Ctx → Option (List (String × MacroDefault))
  | [], _ => some []
  | (k, d) :: rest, c =>
    match resolveDefaultAsVariable d c, resolveAllDefaults rest c with
    | some s, some r => some ((k, MacroDefault.valDefault s) :: r)
    | _, _ => none

/-- DefineMacroNode.render: replaces the stored kwargs with their resolved
values (a self-mutation, returned as a new node) and outputs the empty
string. -/
def DefineMacroNode.render (n : DefineMacroNode) (c : Ctx) : Option (DefineMacroNode × String) :=
  match resolveAllDefaults n.kwargs c with
  | some kw => some ({ n with kwargs := kw }, "")
  | none => none

/-- MacroArgNode: the macro_arg block tag, holding its parsed contents. -/
structure MacroArgNode where
  nodelist : Ctx → String

/-- MacroArgNode.render: the tag itself outputs nothing. -/
def MacroArgNode.render (_ : MacroArgNode) (_ : Ctx) : String := ""

/-- MacroArgNode.resolve: renders the saved contents, mimicking Variable's
interface. -/
def MacroArgNode.resolve (n : MacroArgNode) (c : Ctx) : String := n.nodelist c

/-- MacroKwargNode: the macro_kwarg block tag, holding the keyword it
substitutes and its parsed contents. -/
structure MacroKwargNode where
  keyword : String
  nodelist : Ctx → String

/-- MacroKwargNode.render: the tag itself outputs nothing. -/
def MacroKwargNode.render (_ : MacroKwargNode) (_ : Ctx) : String := ""

/-- MacroKwargNode.resolve, inherited from MacroArgNode: renders the saved
contents. -/
def MacroKwargNode.resolve (n : MacroKwargNode) (c : Ctx) : String := n.nodelist c

/-- A value supplied to a macro invocation: a template.Variable (use_macro)
or an arg/kwarg block node (macro_block); the rendering code only calls
resolve on it. -/
inductive Resolvable where
  | ofVariable (v : TemplateVariable)
  | ofArgNode (n : MacroArgNode)
  | ofKwargNode (n : MacroKwargNode)

/-- Resolution of a supplied value in a context: Variable.resolve may fail
on a missing variable; the block nodes always render. -/
def Resolvable.resolve : Resolvable → Ctx → Option String
  | Resolvable.ofVariable v, c => TemplateVariable.resolve v c
  | Resolvable.ofArgNode n, c => some (MacroArgNode.resolve n c)
  | Resolvable.ofKwargNode n, c => some (MacroKwargNode.resolve n c)

/-- UseMacroNode: the invoked definition node and the supplied positional
and keyword values. -/
structure UseMacroNode where
  macroDef : DefineMacroNode
  args : List Resolvable
  kwargs : List (String × Resolvable)

/-- The first loop of UseMacroNode.render: bind declared positional
parameters in order, resolving the matching supplied value in the current
(already partially updated) context, and binding the empty string when the
supplied list runs out (the caught IndexError). -/
def bindMacroArgs : List String → List Resolvable → Ctx → Option Ctx
  | [], _, c => some c
  | p :: ps, [], c => bindMacroArgs ps [] (dictSet c p "")
  | p :: ps, v :: vs, c =>
    match Resolvable.resolve v c with
    | some s => bindMacroArgs ps vs (dictSet c p s)
    | none => none

/-- The second loop of UseMacroNode.render: bind each declared keyword
parameter to the supplied value when present, else resolve a still-deferred
default, else use the already-resolved default as-is. -/
def bindMacroKwargs : List (String × MacroDefault) → List (String × Resolvable) → Ctx → Option Ctx
  | [], _, c => some c
  | (nm, dflt) :: rest, supplied, c =>
    match dictGet supplied nm with
    | some v =>
      match Resolvable.resolve v c with
      | some s => bindMacroKwargs rest supplied (dictSet c nm s)
      | none => none
    | none =>
      match dflt with
      | MacroDefault.varDefault tv =>
        match TemplateVariable.resolve tv c with
        | some s => bindMacroKwargs rest supplied (dictSet c nm s)
        | none => none
      | MacroDefault.valDefault s => bindMacroKwargs rest supplied (dictSet c nm s)

/-- UseMacroNode.render: bind positional then keyword parameters into the
invoking context, then render the stored nodelist in the adjusted context;
the mutated context is returned alongside the output. -/
def UseMacroNode.render (n : UseMacroNode) (c : Ctx) : Option (Ctx × String) :=
  match bindMacroArgs n.macroDef.args n.args c with
  | none => none
  | some c1 =>
    match bindMacroKwargs n.macroDef.kwargs n.kwargs c1 with
    | none => none
    | some c2 => some (c2, n.macroDef.nodelist c2)

/-- MacroBlockNode: the extended-syntax invocation node; it stores its own
nodelist but inherits UseMacroNode's render, which only uses the macro's. -/
structure MacroBlockNode where
  macroDef : DefineMacroNode
  nodelist : Ctx → String
  args : List Resolvable
  kwargs : List (String × Resolvable)

/-- MacroBlockNode.render, inherited from UseMacroNode. -/
def MacroBlockNode.render (n : MacroBlockNode) (c : Ctx) : Option (Ctx × String) :=
  UseMacroNode.render { macroDef := n.macroDef, args := n.args, kwargs := n.kwargs } c

/-- The names a use_macro or macro_block invocation binds: the macro's
declared positional parameters and keyword parameter names. -/
def UseMacroNode.paramNames (n : UseMacroNode) : List String :=
  n.macroDef.args ++ n.macroDef.kwargs.map Prod.fst

/-- A supplied value is stable under a set of names when binding any of
those names cannot change what it resolves to (it does not read the macro's
own parameters). -/
def Resolvable.stableUnder (r : Resolvable) (names : List String) : Prop :=
  ∀ (c : Ctx) (k v : String), k ∈ names →
    Resolvable.resolve r (dictSet c k v) = Resolvable.resolve r c

/-- Stability of a declared default under a set of names: an
already-resolved default is trivially stable. -/
def MacroDefault.stableUnder : MacroDefault → List String → Prop
  | MacroDefault.varDefault tv, names => Resolvable.stableUnder (Resolvable.ofVariable tv) names
  | MacroDefault.valDefault _, _ => True

/-- The value the kwarg loop binds for a declared keyword parameter, read
off in a given context: the supplied value when present, else the deferred
default's resolution, else the already-resolved default. -/
def kwargSuppliedOrDefault (supplied : List (String × Resolvable)) (nm : String)
    (dflt : MacroDefault) (c : Ctx) : Option String :=
  match dictGet supplied nm with
  | some v => Resolvable.resolve v c
  | none =>
    match dflt with
    | MacroDefault.varDefault tv => TemplateVariable.resolve tv c
    | MacroDefault.valDefault s => some s

/-- The exception kinds the tag-compilation functions can raise. -/
inductive PyExc where
  | templateSyntaxError (msg : String)
  | valueError (msg : String)
  | attributeError (msg : String)
deriving DecidableEq

/-- The parser attribute underscore-setup helper of macros.py: leaves an
existing macros dict untouched, creates an empty one when the attribute is
missing. -/
def setupMacrosDict : Option (List (String × DefineMacroNode)) → List (String × DefineMacroNode)
  | some d => d
  | none => []

/-- The argument loop of the definition tag do_macro: each token must match
the arg regex (collected in order) or the kwarg regex (stored in the kwargs
dict as a template.Variable), else a template syntax error. -/
def parseMacroDefArgsAux (tagName : String) :
    List String → List String → List (String × MacroDefault) →
    Except PyExc (List String × List (String × MacroDefault))
  | [], args, kwargs => Except.ok (args, kwargs)
  | a :: rest, args, kwargs =>
    if isPyIdent a then parseMacroDefArgsAux tagName rest (args ++ [a]) kwargs
    else
      match matchKwargPattern a with
      | some (k, v) =>
        parseMacroDefArgsAux tagName rest args
          (dictSet kwargs k (MacroDefault.varDefault (mkTemplateVariable v)))
      | none =>
        Except.error (PyExc.templateSyntaxError
          ("Malformed arguments to the " ++ tagName ++ " tag."))

/-- The definition tag's compilation function (source name do_macro): splits
the token, parses arg/kwarg declarations, builds the definition node from
the parsed body, and stores it in the parser's macros dict under the macro
name. The parsed body nodelist comes from the host parser. -/
def doMacro (parserMacros : Option (List (String × DefineMacroNode))) (bits : List String)
    (nodelist : Ctx → String) :
    Except PyExc (List (String × DefineMacroNode) × DefineMacroNode) :=
  match bits with
  | tagName :: macroName :: arguments =>
    match parseMacroDefArgsAux tagName arguments [] [] with
    | Except.error e => Except.error e
    | Except.ok (args, kwargs) =>
      let node : DefineMacroNode :=
        { name := macroName, nodelist := nodelist, args := args, kwargs := kwargs }
      Except.ok (dictSet (setupMacrosDict parserMacros) macroName node, node)
  | [tagName] =>
    Except.error (PyExc.templateSyntaxError
      ("'" ++ tagName ++ "' tag requires at least one argument (macro name)"))
  | [] =>
    Except.error (PyExc.templateSyntaxError
      "tag requires at least one argument (macro name)")

/-- The argument loop shared by use_macro and macro_block: kwarg regex is
checked first, then the arg regex, else a template syntax error. -/
def parseMacroParamsAux (tagName : String) :
    List String → List TemplateVariable → List (String × TemplateVariable) →
    Except PyExc (List TemplateVariable × List (String × TemplateVariable))
  | [], args, kwargs => Except.ok (args, kwargs)
  | a :: rest, args, kwargs =>
    match matchKwargPattern a with
    | some (k, v) =>
      parseMacroParamsAux tagName rest args (dictSet kwargs k (mkTemplateVariable v))
    | none =>
      if useArgPattern a then
        parseMacroParamsAux tagName rest (args ++ [mkTemplateVariable a]) kwargs
      else
        Except.error (PyExc.templateSyntaxError
          ("Malformed arguments to the " ++ tagName ++ " tag."))

/-- The common parsing function of use_macro and macro_block (source name
parse_macro_params): too few token bits raise a template syntax error via
the caught IndexError. -/
def parseMacroParams (bits : List String) :
    Except PyExc (String × String × List TemplateVariable × List (String × TemplateVariable)) :=
  match bits with
  | tagName :: macroName :: values =>
    match parseMacroParamsAux tagName values [] [] with
    | Except.error e => Except.error e
    | Except.ok (args, kwargs) => Except.ok (tagName, macroName, args, kwargs)
  | [tagName] =>
    Except.error (PyExc.templateSyntaxError
      (tagName ++ " tag requires at least one argument (macro name)"))
  | [] =>
    Except.error (PyExc.templateSyntaxError
      "tag requires at least one argument (macro name)")

/-- The use_macro compilation function (source name do_usemacro): parses the
token, then looks the macro up in the parser's macros dict; a missing
attribute or key is caught and re-raised as a template syntax error. -/
def doUseMacro (parserMacros : Option (List (String × DefineMacroNode))) (bits : List String) :
    Except PyExc UseMacroNode :=
  match parseMacroParams bits with
  | Except.error e => Except.error e
  | Except.ok (tagName, macroName, args, kwargs) =>
    match parserMacros with
    | none =>
      Except.error (PyExc.templateSyntaxError
        ("Macro '" ++ macroName ++ "' is not defined previously to the " ++ tagName ++ " tag"))
    | some d =>
      match dictGet d macroName with
      | none =>
        Except.error (PyExc.templateSyntaxError
          ("Macro '" ++ macroName ++ "' is not defined previously to the " ++ tagName ++ " tag"))
      | some m =>
        Except.ok { macroDef := m,
                    args := args.map Resolvable.ofVariable,
                    kwargs := kwargs.map (fun p => (p.1, Resolvable.ofVariable p.2)) }

/-- The host's BlockNode as repeatedblocks.py uses it: a named node with a
parsed body, produced by the host's do_block. -/
structure BlockNode where
  name : String
  nodelist : Ctx → String

/-- BlockNode.render: renders the stored body in the given context. -/
def BlockNode.render (b : BlockNode) (c : Ctx) : String := b.nodelist c

/-- set_repeated_blocks of repeatedblocks.py: leaves an existing repeated
blocks dict untouched, creates an empty one when the attribute is
missing. -/
def setRepeatedBlocks : Option (List (String × BlockNode)) → List (String × BlockNode)
  | some d => d
  | none => []

/-- The repeated_block compilation function of repeatedblocks.py: with
exactly one argument it stores the block node built by the host's do_block
(passed in here) under the block name and returns that very node; with any
other number of token bits, the raise of the misspelled
template.TemplateSyntexError itself raises AttributeError. -/
def repeatedBlockTag (blocks : Option (List (String × BlockNode))) (bits : List String)
    (blockNode : BlockNode) :
    Except PyExc (List (String × BlockNode) × BlockNode) :=
  match bits with
  | [_tagName, blockName] =>
    Except.ok (dictSet (setRepeatedBlocks blocks) blockName blockNode, blockNode)
  | _ =>
    Except.error (PyExc.attributeError
      "'module' object has no attribute 'TemplateSyntexError'")

/-- The repeat compilation function of repeatedblocks.py: fetches and
returns the stored block node; a missing attribute or key raises
ValueError, and a wrong number of token bits raises AttributeError through
the misspelled template.TemplateSyntexError. -/
def repeatTag (blocks : Option (List (String × BlockNode))) (bits : List String) :
    Except PyExc BlockNode :=
  match bits with
  | [tagName, blockName] =>
    match blocks with
    | none =>
      Except.error (PyExc.valueError
        ("No block " ++ blockName ++ " tag was found before the " ++ tagName ++ " tag"))
    | some d =>
      match dictGet d blockName with
      | some b => Except.ok b
      | none =>
        Except.error (PyExc.valueError
          ("No block " ++ blockName ++ " tag was found before the " ++ tagName ++ " tag"))
  | _ =>
    Except.error (PyExc.attributeError
      "'module' object has no attribute 'TemplateSyntexError'")

/-- The tag names macros.py registers on its Library, in source order; the
explicit name argument of each register.tag call. -/
def registeredMacroTags : List String :=
  ["macro", "loadmacros", "use_macro", "macro_block", "macro_arg", "macro_kwarg"]

/-- The tag names repeatedblocks.py registers on its Library: the bare
register.tag decorator uses each function's own name. -/
def registeredRepeatedBlockTags : List String :=
  ["repeated_block", "repeat"]

mutual
/-- A node of a loaded template's tree, as get_nodes_by_type walks it: a
macro-definition node or any host node, each with its child nodelist. -/
inductive TemplateNode where
  | macroDefNode (m : DefineMacroNode) (children : NodeListTree) : TemplateNode
  | hostNode (children : NodeListTree) : TemplateNode
inductive NodeListTree where
  | nil : NodeListTree
  | cons (n : TemplateNode) (rest : NodeListTree) : NodeListTree
end

mutual
/-- get_nodes_by_type for DefineMacroNode: preorder collection over the
tree, the node itself first, then its child nodelists. -/
def TemplateNode.getMacroDefNodes : TemplateNode → List DefineMacroNode
  | TemplateNode.macroDefNode m children => m :: NodeListTree.getMacroDefNodes children
  | TemplateNode.hostNode children => NodeListTree.getMacroDefNodes children
def NodeListTree.getMacroDefNodes : NodeListTree → List DefineMacroNode
  | NodeListTree.nil => []
  | NodeListTree.cons n rest =>
    TemplateNode.getMacroDefNodes n ++ NodeListTree.getMacroDefNodes rest
end

/-- LoadMacrosNode: holds the macro-definition nodes discovered in the
loaded template. -/
structure LoadMacrosNode where
  macros : List DefineMacroNode

/-- The loop of LoadMacrosNode.render: renders each stored definition node
for its side effect of resolving defaults; any resolution failure
propagates. -/
def renderMacroDefList : List DefineMacroNode → Ctx → Option Unit
  | [], _ => some ()
  | m :: rest, c =>
    match DefineMacroNode.render m c with
    | some _ => renderMacroDefList rest c
    | none => none

/-- LoadMacrosNode.render: renders the stored definitions, then outputs the
empty string. -/
def LoadMacrosNode.render (n : LoadMacrosNode) (c : Ctx) : Option String :=
  match renderMacroDefList n.macros c with
  | some _ => some ""
  | none => none

/-- The quoting check of do_loadmacros: the first character is a quote and
the last character equals it. -/
def properlyQuoted (s : String) : Bool :=
  match s.toList with
  | [] => false
  | c :: _ => (c == '"' || c == '\'') && s.toList.getLast? == some c

/-- The loadmacros compilation function (source name do_loadmacros): needs
exactly one, properly quoted, argument; loads the named template (its node
tree is passed in here for the host's get_template), registers every
discovered macro-definition node under its name, and returns a
LoadMacrosNode holding those nodes. -/
def doLoadMacros (parserMacros : Option (List (String × DefineMacroNode)))
    (bits : List String) (loaded : NodeListTree) :
    Except PyExc (List (String × DefineMacroNode) × LoadMacrosNode) :=
  match bits with
  | [tagName, filename] =>
    if properlyQuoted filename then
      let ms := NodeListTree.getMacroDefNodes loaded
      Except.ok (ms.foldl (fun acc m => dictSet acc m.name m) (setupMacrosDict parserMacros),
                 { macros := ms })
    else
      Except.error (PyExc.templateSyntaxError
        ("Malformed argument to the " ++ tagName ++
         " template tag. Argument must be in quotes."))
  | [tagName] =>
    Except.error (PyExc.templateSyntaxError
      ("'" ++ tagName ++ "' tag requires exactly one argument (filename)"))
  | _ =>
    Except.error (PyExc.templateSyntaxError
      "tag requires exactly one argument (filename)")

theorem bindMacroArgs_frame :
    ∀ (params : List String) (vals : List Resolvable) (c c' : Ctx),
      bindMacroArgs params vals c = some c' →
      ∀ k, k ∉ params → dictGet c' k = dictGet c k := by
  intro params
  induction params with
  | nil =>
    intro vals c c' h k _
    cases vals <;> simp [bindMacroArgs] at h <;> simp [h]
  | cons p ps ih =>
    intro vals c c' h k hk
    have hkp : k ≠ p := fun he => hk (he ▸ List.mem_cons_self _ _)
    have hkps : k ∉ ps := fun hm => hk (List.mem_cons_of_mem _ hm)
    cases vals with
    | nil =>
      simp only [bindMacroArgs] at h
      rw [ih [] _ c' h k hkps, dictGet_dictSet_ne _ _ _ _ hkp]
    | cons v vs =>
      simp only [bindMacroArgs] at h
      cases hres : Resolvable.resolve v c with
      | none => rw [hres] at h; exact absurd h (by simp)
      | some s =>
        rw [hres] at h
        rw [ih vs _ c' h k hkps, dictGet_dictSet_ne _ _ _ _ hkp]

theorem bindMacroKwargs_frame :
    ∀ (decl : List (String × MacroDefault)) (supplied : List (String × Resolvable)) (c c' : Ctx),
      bindMacroKwargs decl supplied c = some c' →
      ∀ k, k ∉ decl.map Prod.fst → dictGet c' k = dictGet c k := by
  intro decl
  induction decl with
  | nil =>
    intro supplied c c' h k _
    simp [bindMacroKwargs] at h
    simp [h]
  | cons hd rest ih =>
    obtain ⟨nm, dflt⟩ := hd
    intro supplied c c' h k hk
    have hkp : k ≠ nm := fun he => hk (by simp [he])
    have hkps : k ∉ rest.map Prod.fst := fun hm => hk (by simp only [List.map_cons, List.mem_cons]; right; exact hm)
    simp only [bindMacroKwargs] at h
    cases hsup : dictGet supplied nm with
    | some v =>
      simp only [hsup] at h
      cases hres : Resolvable.resolve v c with
      | none => simp [hres] at h
      | some s =>
        simp only [hres] at h
        rw [ih supplied _ c' h k hkps, dictGet_dictSet_ne _ _ _ _ hkp]
    | none =>
      simp only [hsup] at h
      cases dflt with
      | varDefault tv =>
        cases hres : TemplateVariable.resolve tv c with
        | none => simp [hres] at h
        | some s =>
          simp only [hres] at h
          rw [ih supplied _ c' h k hkps, dictGet_dictSet_ne _ _ _ _ hkp]
      | valDefault s =>
        rw [ih supplied _ c' h k hkps, dictGet_dictSet_ne _ _ _ _ hkp]

theorem bindMacroArgs_resolve_stable (S : List String) :
    ∀ (params : List String) (vals : List Resolvable) (c c' : Ctx),
      (∀ p ∈ params, p ∈ S) →
      bindMacroArgs params vals c = some c' →
      ∀ r : Resolvable, Resolvable.stableUnder r S →
        Resolvable.resolve r c' = Resolvable.resolve r c := by
  intro params
  induction params with
  | nil =>
    intro vals c c' _ h r _
    cases vals <;> simp [bindMacroArgs] at h <;> simp [h]
  | cons p ps ih =>
    intro vals c c' hsub h r hr
    have hpS : p ∈ S := hsub p (List.mem_cons_self _ _)
    have hsub' : ∀ q ∈ ps, q ∈ S := fun q hq => hsub q (List.mem_cons_of_mem _ hq)
    cases vals with
    | nil =>
      simp only [bindMacroArgs] at h
      rw [ih [] _ c' hsub' h r hr, hr c p "" hpS]
    | cons v vs =>
      simp only [bindMacroArgs] at h
      cases hres : Resolvable.resolve v c with
      | none => simp [hres] at h
      | some s =>
        simp only [hres] at h
        rw [ih vs _ c' hsub' h r hr, hr c p s hpS]

theorem bindMacroKwargs_resolve_stable (S : List String) :
    ∀ (decl : List (String × MacroDefault)) (supplied : List (String × Resolvable)) (c c' : Ctx),
      (∀ p ∈ decl, p.1 ∈ S) →
      bindMacroKwargs decl supplied c = some c' →
      ∀ r : Resolvable, Resolvable.stableUnder r S →
        Resolvable.resolve r c' = Resolvable.resolve r c := by
  intro decl
  induction decl with
  | nil =>
    intro supplied c c' _ h r _
    simp [bindMacroKwargs] at h
    simp [h]
  | cons hd rest ih =>
    obtain ⟨nm, dflt⟩ := hd
    intro supplied c c' hsub h r hr
    have hnmS : nm ∈ S := hsub (nm, dflt) (List.mem_cons_self _ _)
    have hsub' : ∀ q ∈ rest, q.1 ∈ S := fun q hq => hsub q (List.mem_cons_of_mem _ hq)
    simp only [bindMacroKwargs] at h
    cases hsup : dictGet supplied nm with
    | some v =>
      simp only [hsup] at h
      cases hres : Resolvable.resolve v c with
      | none => simp [hres] at h
      | some s =>
        simp only [hres] at h
        rw [ih supplied _ c' hsub' h r hr, hr c nm s hnmS]
    | none =>
      simp only [hsup] at h
      cases dflt with
      | varDefault tv =>
        cases hres : TemplateVariable.resolve tv c with
        | none => simp [hres] at h
        | some s =>
          simp only [hres] at h
          rw [ih supplied _ c' hsub' h r hr, hr c nm s hnmS]
      | valDefault s =>
        rw [ih supplied _ c' hsub' h r hr, hr c nm s hnmS]

theorem bindMacroArgs_spec (S : List String) :
    ∀ (params : List String) (vals : List Resolvable) (c c' : Ctx),
      (∀ p ∈ params, p ∈ S) → params.Nodup →
      (∀ v ∈ vals, Resolvable.stableUnder v S) →
      bindMacroArgs params vals c = some c' →
      (∀ pv ∈ params.zip vals, dictGet c' pv.1 = Resolvable.resolve pv.2 c) ∧
      (∀ p ∈ params.drop vals.length, dictGet c' p = some "") := by
  intro params
  induction params with
  | nil =>
    intro vals c c' _ _ _ h
    refine ⟨?_, ?_⟩ <;> intro pv hpv <;> simp [List.zip] at hpv
  | cons p ps ih =>
    intro vals c c' hsub hnd hst h
    have hpS : p ∈ S := hsub p (List.mem_cons_self _ _)
    have hsub' : ∀ q ∈ ps, q ∈ S := fun q hq => hsub q (List.mem_cons_of_mem _ hq)
    have hpps : p ∉ ps := (List.nodup_cons.mp hnd).1
    have hnd' : ps.Nodup := (List.nodup_cons.mp hnd).2
    cases vals with
    | nil =>
      simp only [bindMacroArgs] at h
      rcases ih [] _ c' hsub' hnd' (by intro v hv; simp at hv) h with ⟨_, h2⟩
      constructor
      · intro pv hpv; simp [List.zip] at hpv
      · intro q hq
        simp only [List.length_nil, List.drop_zero] at hq ⊢
        rcases List.mem_cons.mp hq with he | hq'
        · subst he
          rw [bindMacroArgs_frame ps [] _ c' h q hpps, dictGet_dictSet_self]
        · exact h2 q (by simpa using hq')
    | cons v vs =>
      simp only [bindMacroArgs] at h
      have hvst : Resolvable.stableUnder v S := hst v (List.mem_cons_self _ _)
      have hst' : ∀ w ∈ vs, Resolvable.stableUnder w S :=
        fun w hw => hst w (List.mem_cons_of_mem _ hw)
      cases hres : Resolvable.resolve v c with
      | none => simp [hres] at h
      | some s =>
        simp only [hres] at h
        rcases ih vs _ c' hsub' hnd' hst' h with ⟨h1, h2⟩
        constructor
        · intro pv hpv
          rcases List.mem_cons.mp hpv with he | hpv'
          · subst he
            rw [bindMacroArgs_frame ps vs _ c' h p hpps, dictGet_dictSet_self, hres]
          · rw [h1 pv hpv']
            exact hst' pv.2 (mem_zip_parts ps vs pv hpv').2 c p s hpS
        · intro q hq
          simp only [List.length_cons, List.drop_succ_cons] at hq
          exact h2 q hq

theorem kwargSuppliedOrDefault_congr (S : List String)
    (supplied : List (String × Resolvable)) (nm : String) (dflt : MacroDefault)
    (c c1 : Ctx)
    (hsup : ∀ p ∈ supplied, Resolvable.stableUnder p.2 S)
    (hd : MacroDefault.stableUnder dflt S)
    (hres : ∀ r : Resolvable, Resolvable.stableUnder r S →
        Resolvable.resolve r c1 = Resolvable.resolve r c) :
    kwargSuppliedOrDefault supplied nm dflt c1 = kwargSuppliedOrDefault supplied nm dflt c := by
  unfold kwargSuppliedOrDefault
  cases hg : dictGet supplied nm with
  | some v =>
    exact hres v (hsup (nm, v) (mem_of_dictGet supplied nm v hg))
  | none =>
    cases dflt with
    | varDefault tv => exact hres (Resolvable.ofVariable tv) hd
    | valDefault s => rfl

theorem bindMacroKwargs_spec (S : List String) :
    ∀ (decl : List (String × MacroDefault)) (supplied : List (String × Resolvable)) (c c' : Ctx),
      (∀ p ∈ decl, p.1 ∈ S) → (decl.map Prod.fst).Nodup →
      (∀ p ∈ supplied, Resolvable.stableUnder p.2 S) →
      (∀ p ∈ decl, MacroDefault.stableUnder p.2 S) →
      bindMacroKwargs decl supplied c = some c' →
      ∀ p ∈ decl, dictGet c' p.1 = kwargSuppliedOrDefault supplied p.1 p.2 c := by
  intro decl
  induction decl with
  | nil =>
    intro supplied c c' _ _ _ _ _ p hp
    simp at hp
  | cons hd rest ih =>
    obtain ⟨nm, dflt⟩ := hd
    intro supplied c c' hsub hnd hsupst hdefst h p hp
    have hnmS : nm ∈ S := hsub (nm, dflt) (List.mem_cons_self _ _)
    have hsub' : ∀ q ∈ rest, q.1 ∈ S := fun q hq => hsub q (List.mem_cons_of_mem _ hq)
    have hnm_rest : nm ∉ rest.map Prod.fst := by
      have := hnd
      simp only [List.map_cons, List.nodup_cons] at this
      exact this.1
    have hnd' : (rest.map Prod.fst).Nodup := by
      have := hnd
      simp only [List.map_cons, List.nodup_cons] at this
      exact this.2
    have hdefst' : ∀ q ∈ rest, MacroDefault.stableUnder q.2 S :=
      fun q hq => hdefst q (List.mem_cons_of_mem _ hq)
    simp only [bindMacroKwargs] at h
    have step :
        ∀ (s : String), bindMacroKwargs rest supplied (dictSet c nm s) = some c' →
          kwargSuppliedOrDefault supplied nm dflt c = some s →
          dictGet c' p.1 = kwargSuppliedOrDefault supplied p.1 p.2 c := by
      intro s hrec hval
      rcases List.mem_cons.mp hp with he | hp'
      · subst he
        rw [bindMacroKwargs_frame rest supplied _ c' hrec nm hnm_rest,
            dictGet_dictSet_self, hval]
      · rw [ih supplied _ c' hsub' hnd' hsupst hdefst' hrec p hp']
        exact kwargSuppliedOrDefault_congr S supplied p.1 p.2 c (dictSet c nm s)
          hsupst (hdefst p (List.mem_cons_of_mem _ hp'))
          (fun r hr => hr c nm s hnmS)
    cases hsup : dictGet supplied nm with
    | some v =>
      simp only [hsup] at h
      cases hres : Resolvable.resolve v c with
      | none => simp [hres] at h
      | some s =>
        simp only [hres] at h
        exact step s h (by simp [kwargSuppliedOrDefault, hsup, hres])
    | none =>
      simp only [hsup] at h
      cases hdefault : dflt with
      | varDefault tv =>
        subst hdefault
        cases hres : TemplateVariable.resolve tv c with
        | none => simp [hres] at h
        | some s =>
          simp only [hres] at h
          exact step s h (by simp [kwargSuppliedOrDefault, hsup, hres])
      | valDefault s =>
        subst hdefault
        exact step s h (by simp [kwargSuppliedOrDefault, hsup])

theorem bindMacroArgs_total (S : List String) :
    ∀ (params : List String) (vals : List Resolvable) (c : Ctx),
      (∀ p ∈ params, p ∈ S) →
      (∀ v ∈ vals, Resolvable.stableUnder v S) →
      (∀ v ∈ vals, (Resolvable.resolve v c).isSome = true) →
      ∃ c1, bindMacroArgs params vals c = some c1 := by
  intro params
  induction params with
  | nil => intro vals c _ _ _; exact ⟨c, by cases vals <;> simp [bindMacroArgs]⟩
  | cons p ps ih =>
    intro vals c hsub hst hres
    have hpS : p ∈ S := hsub p (List.mem_cons_self _ _)
    have hsub' : ∀ q ∈ ps, q ∈ S := fun q hq => hsub q (List.mem_cons_of_mem _ hq)
    cases vals with
    | nil =>
      rcases ih [] (dictSet c p "") hsub' (by intro v hv; simp at hv)
        (by intro v hv; simp at hv) with ⟨c1, h1⟩
      exact ⟨c1, by simp only [bindMacroArgs]; exact h1⟩
    | cons v vs =>
      have hvst : Resolvable.stableUnder v S := hst v (List.mem_cons_self _ _)
      have hst' : ∀ w ∈ vs, Resolvable.stableUnder w S :=
        fun w hw => hst w (List.mem_cons_of_mem _ hw)
      cases hr : Resolvable.resolve v c with
      | none =>
        exact absurd (hres v (List.mem_cons_self _ _)) (by simp [hr])
      | some s =>
        rcases ih vs (dictSet c p s) hsub' hst'
          (by
            intro w hw
            rw [hst w (List.mem_cons_of_mem _ hw) c p s hpS]
            exact hres w (List.mem_cons_of_mem _ hw)) with ⟨c1, h1⟩
        exact ⟨c1, by simp only [bindMacroArgs, hr]; exact h1⟩

theorem bindMacroKwargs_total (S : List String) :
    ∀ (decl : List (String × MacroDefault)) (supplied : List (String × Resolvable)) (c : Ctx),
      (∀ p ∈ decl, p.1 ∈ S) →
      (∀ p ∈ supplied, Resolvable.stableUnder p.2 S) →
      (∀ p ∈ decl, MacroDefault.stableUnder p.2 S) →
      (∀ p ∈ decl, (kwargSuppliedOrDefault supplied p.1 p.2 c).isSome = true) →
      ∃ c1, bindMacroKwargs decl supplied c = some c1 := by
  intro decl
  induction decl with
  | nil => intro supplied c _ _ _ _; exact ⟨c, by simp [bindMacroKwargs]⟩
  | cons hd rest ih =>
    obtain ⟨nm, dflt⟩ := hd
    intro supplied c hsub hsupst hdefst hres
    have hnmS : nm ∈ S := hsub (nm, dflt) (List.mem_cons_self _ _)
    have hsub' : ∀ q ∈ rest, q.1 ∈ S := fun q hq => hsub q (List.mem_cons_of_mem _ hq)
    have hdefst' : ∀ q ∈ rest, MacroDefault.stableUnder q.2 S :=
      fun q hq => hdefst q (List.mem_cons_of_mem _ hq)
    have hhead := hres (nm, dflt) (List.mem_cons_self _ _)
    have hrest : ∀ (s : String), ∀ q ∈ rest,
        (kwargSuppliedOrDefault supplied q.1 q.2 (dictSet c nm s)).isSome = true := by
      intro s q hq
      rw [kwargSuppliedOrDefault_congr S supplied q.1 q.2 c (dictSet c nm s)
        hsupst (hdefst q (List.mem_cons_of_mem _ hq)) (fun r hr => hr c nm s hnmS)]
      exact hres q (List.mem_cons_of_mem _ hq)
    cases hsup : dictGet supplied nm with
    | some v =>
      cases hr : Resolvable.resolve v c with
      | none =>
        simp [kwargSuppliedOrDefault, hsup, hr] at hhead
      | some s =>
        rcases ih supplied (dictSet c nm s) hsub' hsupst hdefst' (hrest s) with ⟨c1, h1⟩
        exact ⟨c1, by simp only [bindMacroKwargs, hsup, hr]; exact h1⟩
    | none =>
      cases dflt with
      | varDefault tv =>
        cases hr : TemplateVariable.resolve tv c with
        | none =>
          simp [kwargSuppliedOrDefault, hsup, hr] at hhead
        | some s =>
          rcases ih supplied (dictSet c nm s) hsub' hsupst hdefst' (hrest s) with ⟨c1, h1⟩
          exact ⟨c1, by simp only [bindMacroKwargs, hsup, hr]; exact h1⟩
      | valDefault s =>
        rcases ih supplied (dictSet c nm s) hsub' hsupst hdefst' (hrest s) with ⟨c1, h1⟩
        exact ⟨c1, by simp only [bindMacroKwargs, hsup]; exact h1⟩

theorem useMacroRender_split (n : UseMacroNode) (c c' : Ctx) (out : String)
    (h : UseMacroNode.render n c = some (c', out)) :
    ∃ c1, bindMacroArgs n.macroDef.args n.args c = some c1 ∧
      bindMacroKwargs n.macroDef.kwargs n.kwargs c1 = some c' ∧
      out = n.macroDef.nodelist c' := by
  unfold UseMacroNode.render at h
  cases h1 : bindMacroArgs n.macroDef.args n.args c with
  | none => simp [h1] at h
  | some c1 =>
    simp only [h1] at h
    cases h2 : bindMacroKwargs n.macroDef.kwargs n.kwargs c1 with
    | none => simp [h2] at h
    | some c2 =>
      simp only [h2, Option.some.injEq, Prod.mk.injEq] at h
      obtain ⟨hc, houtr⟩ := h
      subst hc
      exact ⟨c1, h1 ▸ rfl, h2, houtr.symm⟩

theorem paramNames_facts (n : UseMacroNode) (hnd : (UseMacroNode.paramNames n).Nodup) :
    (∀ p ∈ n.macroDef.args, p ∈ UseMacroNode.paramNames n) ∧
    (∀ p ∈ n.macroDef.kwargs, p.1 ∈ UseMacroNode.paramNames n) ∧
    n.macroDef.args.Nodup ∧ (n.macroDef.kwargs.map Prod.fst).Nodup ∧
    (∀ p ∈ n.macroDef.args, p ∉ n.macroDef.kwargs.map Prod.fst) := by
  have hsplit := List.nodup_append.mp (by simpa [UseMacroNode.paramNames] using hnd)
  refine ⟨?_, ?_, hsplit.1, hsplit.2.1, ?_⟩
  · intro p hp
    exact List.mem_append_left _ hp
  · intro p hp
    exact List.mem_append_right _ (List.mem_map_of_mem Prod.fst hp)
  · intro p hp hq
    exact hsplit.2.2 hp hq

/-- C1: for every rendering of a use_macro (or macro_block) invocation,
when the macro's parameter names are distinct and the supplied values and
deferred defaults do not themselves read those parameter names, the i-th
supplied positional value is resolved in the invoking context and bound to
the i-th declared positional parameter, every declared keyword parameter is
bound to the supplied value resolved in the invoking context when supplied
and otherwise to its default (a still-deferred template variable resolved
in the invoking context, an already-resolved literal used as-is), and the
output is the macro's stored nodelist rendered in the adjusted context;
macro_block renders through the same inherited code path. -/
theorem use_macro_binding_correct (n : UseMacroNode) (c c' : Ctx) (out : String)
    (hnd : (UseMacroNode.paramNames n).Nodup)
    (hargs : ∀ r ∈ n.args, Resolvable.stableUnder r (UseMacroNode.paramNames n))
    (hkw : ∀ p ∈ n.kwargs, Resolvable.stableUnder p.2 (UseMacroNode.paramNames n))
    (hdef : ∀ p ∈ n.macroDef.kwargs, MacroDefault.stableUnder p.2 (UseMacroNode.paramNames n))
    (h : UseMacroNode.render n c = some (c', out)) :
    out = n.macroDef.nodelist c' ∧
    (∀ pv ∈ n.macroDef.args.zip n.args, dictGet c' pv.1 = Resolvable.resolve pv.2 c) ∧
    (∀ p ∈ n.macroDef.kwargs, dictGet c' p.1 = kwargSuppliedOrDefault n.kwargs p.1 p.2 c) ∧
    (∀ nl : Ctx → String,
      MacroBlockNode.render
        { macroDef := n.macroDef, nodelist := nl, args := n.args, kwargs := n.kwargs } c =
        UseMacroNode.render n c) := by
  rcases useMacroRender_split n c c' out h with ⟨c1, h1, h2, hout⟩
  rcases paramNames_facts n hnd with ⟨hsubA, hsubK, hndA, hndK, hdisj⟩
  rcases bindMacroArgs_spec (UseMacroNode.paramNames n) n.macroDef.args n.args c c1
    hsubA hndA hargs h1 with ⟨hzip, _⟩
  have hkwspec := bindMacroKwargs_spec (UseMacroNode.paramNames n) n.macroDef.kwargs
    n.kwargs c1 c' hsubK hndK hkw hdef h2
  have hstab1 := bindMacroArgs_resolve_stable (UseMacroNode.paramNames n)
    n.macroDef.args n.args c c1 hsubA h1
  refine ⟨hout, ?_, ?_, ?_⟩
  · intro pv hpv
    have hp1 : pv.1 ∈ n.macroDef.args := (mem_zip_parts _ _ pv hpv).1
    rw [bindMacroKwargs_frame n.macroDef.kwargs n.kwargs c1 c' h2 pv.1 (hdisj pv.1 hp1)]
    exact hzip pv hpv
  · intro p hp
    rw [hkwspec p hp]
    exact kwargSuppliedOrDefault_congr (UseMacroNode.paramNames n) n.kwargs p.1 p.2 c c1
      hkw (hdef p hp) hstab1
  · intro nl
    rfl

/-- A concrete one-arg one-kwarg invocation used to instantiate the binding
theorem. -/
def c1ExampleMacroDef : DefineMacroNode :=
  { name := "m"
    nodelist := fun ctx => (dictGet ctx "a").getD ""
    args := ["a"]
    kwargs := [("k", MacroDefault.varDefault (TemplateVariable.var "g"))] }

/-- The invocation supplying one literal positional value and no keyword
values. -/
def c1ExampleNode : UseMacroNode :=
  { macroDef := c1ExampleMacroDef
    args := [Resolvable.ofVariable (TemplateVariable.lit "A")]
    kwargs := [] }

theorem use_macro_binding_correct_witness :
    UseMacroNode.render c1ExampleNode [("g", "G")] =
      some ([("g", "G"), ("a", "A"), ("k", "G")], "A") ∧
    dictGet [("g", "G"), ("a", "A"), ("k", "G")] "a" =
      Resolvable.resolve (Resolvable.ofVariable (TemplateVariable.lit "A")) [("g", "G")] ∧
    dictGet [("g", "G"), ("a", "A"), ("k", "G")] "k" =
      kwargSuppliedOrDefault [] "k" (MacroDefault.varDefault (TemplateVariable.var "g"))
        [("g", "G")] := by
  have hrender : UseMacroNode.render c1ExampleNode [("g", "G")] =
      some ([("g", "G"), ("a", "A"), ("k", "G")], "A") := by decide
  have hargs : ∀ r ∈ c1ExampleNode.args,
      Resolvable.stableUnder r (UseMacroNode.paramNames c1ExampleNode) := by
    intro r hr
    simp only [c1ExampleNode] at hr
    rcases List.mem_singleton.mp hr with he
    subst he
    intro c k v _
    rfl
  have hkw : ∀ p ∈ c1ExampleNode.kwargs,
      Resolvable.stableUnder p.2 (UseMacroNode.paramNames c1ExampleNode) := by
    intro p hp
    simp [c1ExampleNode] at hp
  have hdef : ∀ p ∈ c1ExampleNode.macroDef.kwargs,
      MacroDefault.stableUnder p.2 (UseMacroNode.paramNames c1ExampleNode) := by
    intro p hp
    simp only [c1ExampleNode, c1ExampleMacroDef] at hp
    rcases List.mem_singleton.mp hp with he
    subst he
    intro c k v hk
    have : k = "a" ∨ k = "k" := by
      simpa [UseMacroNode.paramNames, c1ExampleNode, c1ExampleMacroDef] using hk
    show dictGet (dictSet c k v) "g" = dictGet c "g"
    rcases this with he | he <;> subst he <;>
      exact dictGet_dictSet_ne _ _ _ _ (by decide)
  have hmain := use_macro_binding_correct c1ExampleNode [("g", "G")]
    [("g", "G"), ("a", "A"), ("k", "G")] "A" (by decide) hargs hkw hdef hrender
  refine ⟨hrender, ?_, ?_⟩
  · exact hmain.2.1 ("a", Resolvable.ofVariable (TemplateVariable.lit "A"))
      (by simp [c1ExampleNode, c1ExampleMacroDef, List.zip])
  · exact hmain.2.2.1 ("k", MacroDefault.varDefault (TemplateVariable.var "g"))
      (by simp [c1ExampleNode, c1ExampleMacroDef])

/-- C2 (amended): the rendering scope of a use_macro or macro_block
invocation is not transient but the invoking context itself: names outside
the macro's declared parameter names keep their prior values, while (for
distinct parameter names whose supplied values do not read them) each bound
positional parameter name still holds the resolved supplied value in the
context returned after the tag's output is produced. -/
theorem use_macro_bindings_persist (n : UseMacroNode) (c c' : Ctx) (out : String)
    (h : UseMacroNode.render n c = some (c', out)) :
    (∀ k, k ∉ UseMacroNode.paramNames n → dictGet c' k = dictGet c k) ∧
    ((UseMacroNode.paramNames n).Nodup →
      (∀ r ∈ n.args, Resolvable.stableUnder r (UseMacroNode.paramNames n)) →
      ∀ pv ∈ n.macroDef.args.zip n.args, dictGet c' pv.1 = Resolvable.resolve pv.2 c) := by
  rcases useMacroRender_split n c c' out h with ⟨c1, h1, h2, _⟩
  constructor
  · intro k hk
    have hkA : k ∉ n.macroDef.args :=
      fun hm => hk (List.mem_append_left _ hm)
    have hkK : k ∉ n.macroDef.kwargs.map Prod.fst :=
      fun hm => hk (List.mem_append_right _ hm)
    rw [bindMacroKwargs_frame n.macroDef.kwargs n.kwargs c1 c' h2 k hkK,
        bindMacroArgs_frame n.macroDef.args n.args c c1 h1 k hkA]
  · intro hnd hargs pv hpv
    rcases paramNames_facts n hnd with ⟨hsubA, _, hndA, _, hdisj⟩
    rcases bindMacroArgs_spec (UseMacroNode.paramNames n) n.macroDef.args n.args c c1
      hsubA hndA hargs h1 with ⟨hzip, _⟩
    have hp1 : pv.1 ∈ n.macroDef.args := (mem_zip_parts _ _ pv hpv).1
    rw [bindMacroKwargs_frame n.macroDef.kwargs n.kwargs c1 c' h2 pv.1 (hdisj pv.1 hp1)]
    exact hzip pv hpv

/-- The invocation used to refute transience: one declared parameter x,
one supplied literal value. -/
def c2ExampleNode : UseMacroNode :=
  { macroDef := { name := "m", nodelist := fun _ => "", args := ["x"], kwargs := [] }
    args := [Resolvable.ofVariable (TemplateVariable.lit "new")]
    kwargs := [] }

/-- C2 counterexample: rendering the invocation in a context where x was
bound to old returns the invoking context with x now bound to new, so the
pre-invocation value of x is not restored after the tag's output is
produced. -/
theorem use_macro_scope_not_transient_cex :
    UseMacroNode.render c2ExampleNode [("x", "old")] = some ([("x", "new")], "") ∧
    dictGet [("x", "old")] "x" = some "old" ∧
    dictGet [("x", "new")] "x" ≠ dictGet [("x", "old")] "x" := by
  refine ⟨by decide, by decide, by decide⟩

theorem use_macro_bindings_persist_witness :
    UseMacroNode.render c2ExampleNode [("x", "old"), ("y", "keep")] =
      some ([("x", "new"), ("y", "keep")], "") ∧
    dictGet [("x", "new"), ("y", "keep")] "y" = dictGet [("x", "old"), ("y", "keep")] "y" ∧
    dictGet [("x", "new"), ("y", "keep")] "x" =
      Resolvable.resolve (Resolvable.ofVariable (TemplateVariable.lit "new"))
        [("x", "old"), ("y", "keep")] := by
  have hrender : UseMacroNode.render c2ExampleNode [("x", "old"), ("y", "keep")] =
      some ([("x", "new"), ("y", "keep")], "") := by decide
  have h := use_macro_bindings_persist c2ExampleNode [("x", "old"), ("y", "keep")]
    [("x", "new"), ("y", "keep")] "" hrender
  refine ⟨hrender, h.1 "y" (by decide), ?_⟩
  refine h.2 (by decide) ?_ ("x", Resolvable.ofVariable (TemplateVariable.lit "new"))
    (by simp [c2ExampleNode, List.zip])
  intro r hr
  simp only [c2ExampleNode] at hr
  rcases List.mem_singleton.mp hr with he
  subst he
  intro c k v _
  rfl

/-- C7: an invocation may supply fewer positional values than the macro
declares; provided the values it does supply and the keyword defaults
resolve (and the hygiene conditions of distinct, unread parameter names
hold), rendering succeeds, and every declared positional parameter beyond
the supplied ones is bound to the empty string. -/
theorem use_macro_missing_positional_args_default_empty
    (n : UseMacroNode) (c : Ctx)
    (hnd : (UseMacroNode.paramNames n).Nodup)
    (hargs : ∀ r ∈ n.args, Resolvable.stableUnder r (UseMacroNode.paramNames n))
    (hkw : ∀ p ∈ n.kwargs, Resolvable.stableUnder p.2 (UseMacroNode.paramNames n))
    (hdef : ∀ p ∈ n.macroDef.kwargs, MacroDefault.stableUnder p.2 (UseMacroNode.paramNames n))
    (hres : ∀ r ∈ n.args, (Resolvable.resolve r c).isSome = true)
    (hkres : ∀ p ∈ n.macroDef.kwargs,
        (kwargSuppliedOrDefault n.kwargs p.1 p.2 c).isSome = true) :
    ∃ c' out, UseMacroNode.render n c = some (c', out) ∧
      ∀ p ∈ n.macroDef.args.drop n.args.length, dictGet c' p = some "" := by
  rcases paramNames_facts n hnd with ⟨hsubA, hsubK, hndA, hndK, hdisj⟩
  rcases bindMacroArgs_total (UseMacroNode.paramNames n) n.macroDef.args n.args c
    hsubA hargs hres with ⟨c1, h1⟩
  have hstab1 := bindMacroArgs_resolve_stable (UseMacroNode.paramNames n)
    n.macroDef.args n.args c c1 hsubA h1
  have hkres1 : ∀ p ∈ n.macroDef.kwargs,
      (kwargSuppliedOrDefault n.kwargs p.1 p.2 c1).isSome = true := by
    intro p hp
    rw [kwargSuppliedOrDefault_congr (UseMacroNode.paramNames n) n.kwargs p.1 p.2 c c1
      hkw (hdef p hp) hstab1]
    exact hkres p hp
  rcases bindMacroKwargs_total (UseMacroNode.paramNames n) n.macroDef.kwargs n.kwargs c1
    hsubK hkw hdef hkres1 with ⟨c2, h2⟩
  refine ⟨c2, n.macroDef.nodelist c2, ?_, ?_⟩
  · simp only [UseMacroNode.render, h1, h2]
  · intro p hp
    rcases bindMacroArgs_spec (UseMacroNode.paramNames n) n.macroDef.args n.args c c1
      hsubA hndA hargs h1 with ⟨_, hdrop⟩
    have hpA : p ∈ n.macroDef.args := List.drop_subset _ _ hp
    rw [bindMacroKwargs_frame n.macroDef.kwargs n.kwargs c1 c2 h2 p (hdisj p hpA)]
    exact hdrop p hp

/-- The invocation used to instantiate the missing-positional-argument
theorem: two declared parameters, one supplied value. -/
def c7ExampleNode : UseMacroNode :=
  { macroDef := { name := "m", nodelist := fun _ => "", args := ["x", "y"], kwargs := [] }
    args := [Resolvable.ofVariable (TemplateVariable.lit "v")]
    kwargs := [] }

theorem use_macro_missing_positional_args_default_empty_witness :
    UseMacroNode.render c7ExampleNode [] = some ([("x", "v"), ("y", "")], "") ∧
    dictGet [("x", "v"), ("y", "")] "y" = some "" := by
  have hargs : ∀ r ∈ c7ExampleNode.args,
      Resolvable.stableUnder r (UseMacroNode.paramNames c7ExampleNode) := by
    intro r hr
    simp only [c7ExampleNode] at hr
    rcases List.mem_singleton.mp hr with he
    subst he
    intro c k v _
    rfl
  have hkw : ∀ p ∈ c7ExampleNode.kwargs,
      Resolvable.stableUnder p.2 (UseMacroNode.paramNames c7ExampleNode) := by
    intro p hp
    simp [c7ExampleNode] at hp
  have hdef : ∀ p ∈ c7ExampleNode.macroDef.kwargs,
      MacroDefault.stableUnder p.2 (UseMacroNode.paramNames c7ExampleNode) := by
    intro p hp
    simp [c7ExampleNode] at hp
  have hres : ∀ r ∈ c7ExampleNode.args, (Resolvable.resolve r []).isSome = true := by
    intro r hr
    simp only [c7ExampleNode] at hr
    rcases List.mem_singleton.mp hr with he
    subst he
    rfl
  have hkres : ∀ p ∈ c7ExampleNode.macroDef.kwargs,
      (kwargSuppliedOrDefault c7ExampleNode.kwargs p.1 p.2 []).isSome = true := by
    intro p hp
    simp [c7ExampleNode] at hp
  rcases use_macro_missing_positional_args_default_empty c7ExampleNode []
    (by decide) hargs hkw hdef hres hkres with ⟨c', out, hr, hempty⟩
  have hr' : UseMacroNode.render c7ExampleNode [] = some ([("x", "v"), ("y", "")], "") := by
    decide
  rw [hr'] at hr
  have hc : c' = [("x", "v"), ("y", "")] := by
    cases hr
    rfl
  subst hc
  refine ⟨hr', hempty "y" (by simp [c7ExampleNode])⟩

/-- C3: at the failing inputs, the repeat tag of repeatedblocks.py raises
ValueError (block name not defined before the tag) and AttributeError (the
misspelled TemplateSyntexError, wrong number of token bits), not a template
syntax error, while the macros.py compilation functions do raise template
syntax errors for too few token bits, malformed arguments, and undefined
macro names. -/
theorem repeat_error_kinds_at_failing_inputs :
    repeatTag none ["repeat", "someblock"] =
      Except.error (PyExc.valueError
        "No block someblock tag was found before the repeat tag") ∧
    repeatTag (some []) ["repeat", "someblock"] =
      Except.error (PyExc.valueError
        "No block someblock tag was found before the repeat tag") ∧
    repeatTag (some []) ["repeat"] =
      Except.error (PyExc.attributeError
        "'module' object has no attribute 'TemplateSyntexError'") ∧
    repeatedBlockTag none ["repeated_block"] { name := "b", nodelist := fun _ => "" } =
      Except.error (PyExc.attributeError
        "'module' object has no attribute 'TemplateSyntexError'") ∧
    parseMacroParams ["use_macro"] =
      Except.error (PyExc.templateSyntaxError
        "use_macro tag requires at least one argument (macro name)") ∧
    parseMacroParams ["use_macro", "m", "!!"] =
      Except.error (PyExc.templateSyntaxError
        "Malformed arguments to the use_macro tag.") ∧
    doUseMacro none ["use_macro", "mymacro"] =
      Except.error (PyExc.templateSyntaxError
        "Macro 'mymacro' is not defined previously to the use_macro tag") := by
  refine ⟨rfl, rfl, rfl, rfl, rfl, ?_, rfl⟩
  rfl

/-- C4 counterexample: no tag is registered under the name repeatedblock;
the block-definition tag's registered name is repeated_block. -/
theorem repeatedblock_name_not_registered_cex :
    "repeatedblock" ∉ registeredRepeatedBlockTags ∧
    "repeatedblock" ∉ registeredMacroTags := by
  refine ⟨by decide, by decide⟩

/-- C4 (amended): the extension registers the macro tags macro, use_macro
and macro_block (besides loadmacros, macro_arg and macro_kwarg) and the
block-repetition tags repeated_block (not repeatedblock) and repeat. -/
theorem registered_tag_names_amended :
    "macro" ∈ registeredMacroTags ∧
    "use_macro" ∈ registeredMacroTags ∧
    "macro_block" ∈ registeredMacroTags ∧
    "repeated_block" ∈ registeredRepeatedBlockTags ∧
    "repeat" ∈ registeredRepeatedBlockTags ∧
    "repeatedblock" ∉ registeredRepeatedBlockTags := by
  refine ⟨by decide, by decide, by decide, by decide, by decide, by decide⟩

/-- C5: compiling a repeated_block stores the block node it returns, and a
later repeat for the same name fetches that very node out of the stored
dict, so rendering the repeat's node in any context equals rendering the
originally defined block in that context. -/
theorem repeat_returns_stored_block_node
    (st : Option (List (String × BlockNode))) (tagD tagR blockName : String)
    (b retD retR : BlockNode) (d : List (String × BlockNode))
    (h1 : repeatedBlockTag st [tagD, blockName] b = Except.ok (d, retD))
    (h2 : repeatTag (some d) [tagR, blockName] = Except.ok retR) :
    retD = b ∧ retR = b ∧ ∀ c : Ctx, BlockNode.render retR c = BlockNode.render b c := by
  simp only [repeatedBlockTag, Except.ok.injEq, Prod.mk.injEq] at h1
  obtain ⟨hd, hret⟩ := h1
  subst hd
  subst hret
  simp only [repeatTag, dictGet_dictSet_self, Except.ok.injEq] at h2
  subst h2
  exact ⟨rfl, rfl, fun _ => rfl⟩

/-- The block node used to instantiate the stored-block theorem. -/
def c5ExampleBlock : BlockNode := { name := "title", nodelist := fun _ => "Repeated" }

theorem repeat_returns_stored_block_node_witness :
    repeatedBlockTag none ["repeated_block", "title"] c5ExampleBlock =
      Except.ok ([("title", c5ExampleBlock)], c5ExampleBlock) ∧
    repeatTag (some [("title", c5ExampleBlock)]) ["repeat", "title"] =
      Except.ok c5ExampleBlock ∧
    BlockNode.render c5ExampleBlock [] = "Repeated" := by
  have h1 : repeatedBlockTag none ["repeated_block", "title"] c5ExampleBlock =
      Except.ok ([("title", c5ExampleBlock)], c5ExampleBlock) := rfl
  have h2 : repeatTag (some [("title", c5ExampleBlock)]) ["repeat", "title"] =
      Except.ok c5ExampleBlock := by
    simp [repeatTag, dictGet]
  have h := repeat_returns_stored_block_node none "repeated_block" "repeat" "title"
    c5ExampleBlock c5ExampleBlock c5ExampleBlock [("title", c5ExampleBlock)] h1 h2
  exact ⟨h1, h2, rfl⟩

theorem dictGet_foldl_dictSet_not_mem :
    ∀ (ms : List DefineMacroNode) (d : List (String × DefineMacroNode)) (k : String),
      k ∉ ms.map DefineMacroNode.name →
      dictGet (ms.foldl (fun acc m => dictSet acc m.name m) d) k = dictGet d k := by
  intro ms
  induction ms with
  | nil => intro d k _; rfl
  | cons m rest ih =>
    intro d k hk
    have hkm : k ≠ m.name := fun he => hk (by simp [he])
    have hkrest : k ∉ rest.map DefineMacroNode.name :=
      fun hm => hk (by simp only [List.map_cons, List.mem_cons]; right; exact hm)
    simp only [List.foldl_cons]
    rw [ih (dictSet d m.name m) k hkrest, dictGet_dictSet_ne _ _ _ _ hkm]

theorem dictGet_foldl_dictSet_mem :
    ∀ (ms : List DefineMacroNode) (d : List (String × DefineMacroNode)),
      (ms.map DefineMacroNode.name).Nodup →
      ∀ m ∈ ms, dictGet (ms.foldl (fun acc m => dictSet acc m.name m) d) m.name = some m := by
  intro ms
  induction ms with
  | nil => intro d _ m hm; simp at hm
  | cons m0 rest ih =>
    intro d hnd m hm
    have hnd0 : m0.name ∉ rest.map DefineMacroNode.name := by
      simp only [List.map_cons, List.nodup_cons] at hnd
      exact hnd.1
    have hnd' : (rest.map DefineMacroNode.name).Nodup := by
      simp only [List.map_cons, List.nodup_cons] at hnd
      exact hnd.2
    simp only [List.foldl_cons]
    rcases List.mem_cons.mp hm with he | hm'
    · subst he
      rw [dictGet_foldl_dictSet_not_mem rest (dictSet d m.name m) m.name hnd0,
          dictGet_dictSet_self]
    · exact ih (dictSet d m0.name m0) hnd' m hm'

/-- C6: with a properly quoted filename (and distinct discovered macro
names), loadmacros compilation succeeds; the returned LoadMacrosNode holds
exactly the macro-definition nodes discovered by walking the loaded
template's node tree, each of those nodes is stored in the parser's macros
dict under its name, every other name is untouched, and the loadmacros tag
renders to the empty string whenever its render succeeds. -/
theorem loadmacros_registers_discovered_nodes
    (pm : Option (List (String × DefineMacroNode))) (tagName filename : String)
    (loaded : NodeListTree) (c : Ctx)
    (hq : properlyQuoted filename = true)
    (hnd : ((NodeListTree.getMacroDefNodes loaded).map DefineMacroNode.name).Nodup) :
    ∀ d node, doLoadMacros pm [tagName, filename] loaded = Except.ok (d, node) →
      node.macros = NodeListTree.getMacroDefNodes loaded ∧
      (∀ m ∈ NodeListTree.getMacroDefNodes loaded, dictGet d m.name = some m) ∧
      (∀ k, k ∉ (NodeListTree.getMacroDefNodes loaded).map DefineMacroNode.name →
        dictGet d k = dictGet (setupMacrosDict pm) k) ∧
      (∀ out, LoadMacrosNode.render node c = some out → out = "") := by
  intro d node h
  simp only [doLoadMacros, hq, if_true, Except.ok.injEq, Prod.mk.injEq] at h
  obtain ⟨hd, hnode⟩ := h
  subst hd
  subst hnode
  refine ⟨rfl, ?_, ?_, ?_⟩
  · intro m hm
    exact dictGet_foldl_dictSet_mem (NodeListTree.getMacroDefNodes loaded)
      (setupMacrosDict pm) hnd m hm
  · intro k hk
    exact dictGet_foldl_dictSet_not_mem (NodeListTree.getMacroDefNodes loaded)
      (setupMacrosDict pm) k hk
  · intro out hout
    unfold LoadMacrosNode.render at hout
    cases hr : renderMacroDefList (NodeListTree.getMacroDefNodes loaded) c with
    | none => rw [hr] at hout; simp at hout
    | some u =>
      rw [hr] at hout
      simpa using hout.symm

/-- The macro definition discovered in the loaded-template example. -/
def c6ExampleMacroDef : DefineMacroNode :=
  { name := "test_macro"
    nodelist := fun _ => ""
    args := ["arg1"]
    kwargs := [("kwarg1", MacroDefault.varDefault (TemplateVariable.lit "default"))] }

/-- A loaded template tree whose macro definition sits below a host node,
so that registration really walks the tree. -/
def c6ExampleTree : NodeListTree :=
  NodeListTree.cons
    (TemplateNode.hostNode
      (NodeListTree.cons (TemplateNode.macroDefNode c6ExampleMacroDef NodeListTree.nil)
        NodeListTree.nil))
    NodeListTree.nil

theorem loadmacros_registers_discovered_nodes_witness :
    properlyQuoted "'m.html'" = true ∧
    doLoadMacros none ["loadmacros", "'m.html'"] c6ExampleTree =
      Except.ok ([("test_macro", c6ExampleMacroDef)], { macros := [c6ExampleMacroDef] }) ∧
    dictGet [("test_macro", c6ExampleMacroDef)] "test_macro" = some c6ExampleMacroDef ∧
    LoadMacrosNode.render { macros := [c6ExampleMacroDef] } [] = some "" := by
  have hq : properlyQuoted "'m.html'" = true := by decide
  have hok : doLoadMacros none ["loadmacros", "'m.html'"] c6ExampleTree =
      Except.ok ([("test_macro", c6ExampleMacroDef)], { macros := [c6ExampleMacroDef] }) := rfl
  have hmain := loadmacros_registers_discovered_nodes none "loadmacros" "'m.html'"
    c6ExampleTree [] hq (by decide) [("test_macro", c6ExampleMacroDef)]
    { macros := [c6ExampleMacroDef] } hok
  refine ⟨hq, hok, ?_, rfl⟩
  have hmem : c6ExampleMacroDef ∈ NodeListTree.getMacroDefNodes c6ExampleTree :=
    List.mem_cons_self _ _
  exact hmain.2.1 c6ExampleMacroDef hmem

/-- C8: the storage initializers are non-destructive: on a parser that
already has the macros (respectively repeated blocks) dict they leave it
and every entry unchanged, on a parser without it they create it empty;
and each storing tag-compilation step (macro, repeated_block, loadmacros)
preserves every previously registered entry under other names. -/
theorem storage_initializers_nondestructive :
    (∀ d : List (String × DefineMacroNode), setupMacrosDict (some d) = d) ∧
    setupMacrosDict none = [] ∧
    (∀ d : List (String × BlockNode), setRepeatedBlocks (some d) = d) ∧
    setRepeatedBlocks none = [] ∧
    (∀ (st : Option (List (String × DefineMacroNode))) (bits : List String)
        (nl : Ctx → String) (d : List (String × DefineMacroNode)) (node : DefineMacroNode),
        doMacro st bits nl = Except.ok (d, node) →
        ∀ k, k ≠ node.name → dictGet d k = dictGet (setupMacrosDict st) k) ∧
    (∀ (st : Option (List (String × BlockNode))) (tagName blockName : String)
        (b : BlockNode) (d : List (String × BlockNode)) (ret : BlockNode),
        repeatedBlockTag st [tagName, blockName] b = Except.ok (d, ret) →
        ∀ k, k ≠ blockName → dictGet d k = dictGet (setRepeatedBlocks st) k) ∧
    (∀ (pm : Option (List (String × DefineMacroNode))) (bits : List String)
        (loaded : NodeListTree) (d : List (String × DefineMacroNode)) (node : LoadMacrosNode),
        doLoadMacros pm bits loaded = Except.ok (d, node) →
        ∀ k, k ∉ node.macros.map DefineMacroNode.name →
          dictGet d k = dictGet (setupMacrosDict pm) k) := by
  refine ⟨fun _ => rfl, rfl, fun _ => rfl, rfl, ?_, ?_, ?_⟩
  · intro st bits nl d node h k hk
    cases bits with
    | nil => simp [doMacro] at h
    | cons tagName rest =>
      cases rest with
      | nil => simp [doMacro] at h
      | cons macroName arguments =>
        simp only [doMacro] at h
        cases hp : parseMacroDefArgsAux tagName arguments [] [] with
        | error e => simp [hp] at h
        | ok res =>
          obtain ⟨as, kws⟩ := res
          simp only [hp, Except.ok.injEq, Prod.mk.injEq] at h
          obtain ⟨hd, hnode⟩ := h
          subst hd
          subst hnode
          exact dictGet_dictSet_ne _ _ _ _ hk
  · intro st tagName blockName b d ret h k hk
    simp only [repeatedBlockTag, Except.ok.injEq, Prod.mk.injEq] at h
    obtain ⟨hd, _⟩ := h
    subst hd
    exact dictGet_dictSet_ne _ _ _ _ hk
  · intro pm bits loaded d node h k hk
    cases bits with
    | nil => simp [doLoadMacros] at h
    | cons tagName rest =>
      cases rest with
      | nil => simp [doLoadMacros] at h
      | cons filename rest2 =>
        cases rest2 with
        | cons x xs => simp [doLoadMacros] at h
        | nil =>
          simp only [doLoadMacros] at h
          by_cases hq : properlyQuoted filename = true
          · simp only [hq, if_true, Except.ok.injEq, Prod.mk.injEq] at h
            obtain ⟨hd, hnode⟩ := h
            subst hd
            subst hnode
            exact dictGet_foldl_dictSet_not_mem _ _ k hk
          · simp [hq] at h

/-- A previously registered macro definition for the non-destructiveness
witness. -/
def c8ExampleOldMacro : DefineMacroNode :=
  { name := "m1", nodelist := fun _ => "old", args := [], kwargs := [] }

/-- The macro definition the witness's macro tag stores. -/
def c8ExampleNewMacro : DefineMacroNode :=
  { name := "m2", nodelist := fun _ => "", args := [], kwargs := [] }

theorem storage_initializers_nondestructive_witness :
    setupMacrosDict (some [("m1", c8ExampleOldMacro)]) = [("m1", c8ExampleOldMacro)] ∧
    setupMacrosDict none = [] ∧
    doMacro (some [("m1", c8ExampleOldMacro)]) ["macro", "m2"] (fun _ => "") =
      Except.ok ([("m1", c8ExampleOldMacro), ("m2", c8ExampleNewMacro)], c8ExampleNewMacro) ∧
    dictGet [("m1", c8ExampleOldMacro), ("m2", c8ExampleNewMacro)] "m1" =
      dictGet (setupMacrosDict (some [("m1", c8ExampleOldMacro)])) "m1" := by
  have hok : doMacro (some [("m1", c8ExampleOldMacro)]) ["macro", "m2"] (fun _ => "") =
      Except.ok ([("m1", c8ExampleOldMacro), ("m2", c8ExampleNewMacro)], c8ExampleNewMacro) :=
    rfl
  refine ⟨storage_initializers_nondestructive.1 [("m1", c8ExampleOldMacro)],
    storage_initializers_nondestructive.2.1, hok, ?_⟩
  exact storage_initializers_nondestructive.2.2.2.2.1
    (some [("m1", c8ExampleOldMacro)]) ["macro", "m2"] (fun _ => "")
    [("m1", c8ExampleOldMacro), ("m2", c8ExampleNewMacro)] c8ExampleNewMacro hok
    "m1" (by decide)

/-- C9: definition and argument-declaration tags contribute no output: a
DefineMacroNode or LoadMacrosNode renders to the empty string whenever its
render succeeds, and a MacroArgNode or MacroKwargNode always renders to the
empty string. -/
theorem definition_nodes_render_empty :
    (∀ (n : DefineMacroNode) (c : Ctx) (n' : DefineMacroNode) (out : String),
        DefineMacroNode.render n c = some (n', out) → out = "") ∧
    (∀ (n : LoadMacrosNode) (c : Ctx) (out : String),
        LoadMacrosNode.render n c = some out → out = "") ∧
    (∀ (n : MacroArgNode) (c : Ctx), MacroArgNode.render n c = "") ∧
    (∀ (n : MacroKwargNode) (c : Ctx), MacroKwargNode.render n c = "") := by
  refine ⟨?_, ?_, fun _ _ => rfl, fun _ _ => rfl⟩
  · intro n c n' out h
    unfold DefineMacroNode.render at h
    cases hr : resolveAllDefaults n.kwargs c with
    | none => rw [hr] at h; simp at h
    | some kw =>
      rw [hr] at h
      simp only [Option.some.injEq, Prod.mk.injEq] at h
      exact h.2.symm
  · intro n c out h
    unfold LoadMacrosNode.render at h
    cases hr : renderMacroDefList n.macros c with
    | none => rw [hr] at h; simp at h
    | some u =>
      rw [hr] at h
      simpa using h.symm

/-- The definition node used to instantiate the empty-rendering theorem:
its deferred default resolves, so its render succeeds. -/
def c9ExampleDef : DefineMacroNode :=
  { name := "m", nodelist := fun _ => "body", args := []
    kwargs := [("k", MacroDefault.varDefault (TemplateVariable.lit "d"))] }

theorem definition_nodes_render_empty_witness :
    DefineMacroNode.render c9ExampleDef [] =
      some ({ name := "m", nodelist := c9ExampleDef.nodelist, args := []
              kwargs := [("k", MacroDefault.valDefault "d")] }, "") ∧
    LoadMacrosNode.render { macros := [c9ExampleDef] } [] = some "" ∧
    MacroArgNode.render { nodelist := fun _ => "contents" } [] = "" ∧
    MacroKwargNode.render { keyword := "kw", nodelist := fun _ => "contents" } [] = "" := by
  refine ⟨rfl, rfl, ?_, ?_⟩
  · exact definition_nodes_render_empty.2.2.1 { nodelist := fun _ => "contents" } []
  · exact definition_nodes_render_empty.2.2.2 { keyword := "kw", nodelist := fun _ => "contents" } []
